import Mathlib

/-!
# Liveness probing and admin-client cache of `mc`

A shallow embedding of `cmd/ping.go` (`getPingInfo`, `ping`, `mainPing`) and
`cmd/client-admin.go` (`NewAdminFactory`), followed by theorems about them.

Conventions of the embedding.

* `uint64` values are naturals below `2 ^ 64`; every `uint64` addition is reduced
  modulo `2 ^ 64`.
* `time.Duration` (an `int64` count of nanoseconds) is an `Int`; the conversion
  `uint64(d)` is `toUint64 d`, reduction modulo `2 ^ 64`.
* The two `int` fields of `serverStats` (`errorCount`, `counter`) are unbounded
  integers: both only ever grow by one per probe result, so the machine bound of
  `int` is out of reach of a run.
* `float64` values that arise are non-negative integers and are represented by their
  value; `float64OfUint64` is the rounding conversion.
* The package-level variable `stop` is threaded through explicitly.
* Go maps are total functions into `Option`.
-/

namespace Mc

/-! ## Machine arithmetic -/

/-- The number of `uint64` values. -/
def u64Size : Nat := 2 ^ 64

/-- Go's conversion `uint64(x)` of a signed 64-bit integer: the two's complement
reading, `x mod 2 ^ 64`. -/
def toUint64 (x : Int) : Nat := (x % (u64Size : Int)).toNat

/-- Number of low bits that `float64` drops from a natural below `2 ^ 64`: the least
`k` (at most the fuel) with `n / 2 ^ k < 2 ^ 53`. -/
def roundShift : Nat → Nat → Nat
  | 0, _ => 0
  | fuel + 1, n => if n < 2 ^ 53 then 0 else 1 + roundShift fuel (n / 2)

/-- Go's conversion `float64(n)` of a `uint64`: the value, as a natural number, of the
nearest double (53-bit significand, ties to even). The result may be `2 ^ 64`. -/
def float64OfUint64 (n : Nat) : Nat :=
  let k := roundShift 11 n
  let q := n / 2 ^ k
  let r := n % 2 ^ k
  if 2 * r > 2 ^ k ∨ (2 * r = 2 ^ k ∧ q % 2 = 1) then (q + 1) * 2 ^ k else q * 2 ^ k

/-- Go's conversion `uint64(f)` of an integer-valued non-negative double. For
`f < 2 ^ 64` it is exact. For `f = 2 ^ 64` the Go specification leaves the result
implementation-dependent; that value is the parameter `ovf`. -/
def uint64OfFloat64 (ovf : Nat) (f : Nat) : Nat :=
  if f < u64Size then f else ovf

/-- The value of `uint64(math.Min(float64(a), float64(b)))` for `uint64` operands. -/
def mathMinU64 (ovf a b : Nat) : Nat :=
  uint64OfFloat64 ovf (min (float64OfUint64 a) (float64OfUint64 b))

/-- The value of `uint64(math.Max(float64(a), float64(b)))` for `uint64` operands. -/
def mathMaxU64 (ovf a b : Nat) : Nat :=
  uint64OfFloat64 ovf (max (float64OfUint64 a) (float64OfUint64 b))

/-- The constant `math.MaxUint64`. -/
def maxUint64 : Nat := 2 ^ 64 - 1

/-! ## Data model of `ping.go` -/

/-- The fields of `url.URL` that the code reads. -/
structure URL where
  Scheme : String
  Host : String
  deriving DecidableEq, Repr

/-- The fields of `madmin.AliveResult` that the code reads. `Error = none` is a nil
error; `some msg` is an error whose `Error()` text is `msg`. -/
structure AliveResult where
  Endpoint : URL
  ResponseTime : Int
  Error : Option String
  deriving DecidableEq, Repr

/-- Per-host aggregate, `type serverStats struct`. -/
structure serverStats where
  min : Nat
  max : Nat
  sum : Nat
  avg : Nat
  errorCount : Int
  err : String
  counter : Int
  deriving DecidableEq, Repr

/-- What `getPingInfo` and `mainPing` read from `*cli.Context`:
`IsSet("count")`, `Int("count")`, `IsSet("error-count")`, `Int("error-count")`,
`Int("interval")`, `Bool("distributed")`. -/
structure CliContext where
  countSet : Bool
  count : Int
  errorCountSet : Bool
  errorCount : Int
  interval : Int
  distributed : Bool
  deriving DecidableEq, Repr

/-- The flag values of a command line that sets no flag: `interval` has the default
`1`, every other flag is unset and reads as zero. -/
def defaultFlags : CliContext :=
  { countSet := false, count := 0, errorCountSet := false, errorCount := 0,
    interval := 1, distributed := false }

/-- The Go type `map[string]serverStats`. -/
abbrev ServerMap := String → Option serverStats

/-- The result of `make(map[string]serverStats)`. -/
def emptyServerMap : ServerMap := fun _ => none

/-- The assignment `m[k] = v`. -/
def mapStore (m : ServerMap) (k : String) (v : serverStats) : ServerMap :=
  fun x => if x = k then some v else m x

/-! ## `getPingInfo` -/

/-- The function `getPingInfo`. The global `stop` is passed in and returned next to
the statistics. `sum / uint64(counter)` is natural-number division by the counter,
which is `stat.counter + 1` or `1`; it is positive unless the stored counter is
negative, which no sequence of calls produces (there Go would divide by a wrapped
value or panic on zero, and the quotient below is not meant to describe that). -/
def getPingInfo (ovf : Nat) (cliCtx : CliContext) (result : AliveResult)
    (serverMap : ServerMap) (stop : Bool) : serverStats × Bool :=
  match result.Error with
  | some msg =>
    let errorString := msg
    let st : serverStats :=
      match serverMap result.Endpoint.Host with
      | some stat =>
        { min := stat.min, max := stat.max, sum := stat.sum, avg := stat.avg,
          errorCount := stat.errorCount + 1, err := errorString, counter := stat.counter }
      | none =>
        { min := 0, max := 0, sum := 0, avg := 0,
          errorCount := 1, err := errorString, counter := 0 }
    let stop1 :=
      if cliCtx.errorCountSet = true ∧ st.errorCount ≥ cliCtx.errorCount then true else stop
    (st, stop1)
  | none =>
    let rt := toUint64 result.ResponseTime
    match serverMap result.Endpoint.Host with
    | some stat =>
      let minVal := if stat.min = 0 then rt else stat.min
      let min := mathMinU64 ovf minVal rt
      let max := mathMaxU64 ovf stat.max rt
      let sum := (stat.sum + rt) % u64Size
      let counter := stat.counter + 1
      ({ min := min, max := max, sum := sum, avg := sum / counter.toNat,
         errorCount := 0, err := "", counter := counter }, stop)
    | none =>
      let min := mathMinU64 ovf maxUint64 rt
      let max := mathMaxU64 ovf 0 rt
      let sum := rt
      let counter : Int := 1
      ({ min := min, max := max, sum := sum, avg := sum / counter.toNat,
         errorCount := 0, err := "", counter := counter }, stop)

/-- The part of the loop body of `ping` that touches the statistics map and the stop
flag: `stat := getPingInfo(cliCtx, result, endPointMap)` followed by
`endPointMap[result.Endpoint.Host] = stat`. -/
def pingStep (ovf : Nat) (cliCtx : CliContext) (st : ServerMap × Bool)
    (result : AliveResult) : ServerMap × Bool :=
  let r := getPingInfo ovf cliCtx result st.1 st.2
  (mapStore st.1 result.Endpoint.Host r.1, r.2)

/-- The statistics map and stop flag after the loop of `ping` has consumed the results
`rs` in order. -/
def foldPingInfo (ovf : Nat) (cliCtx : CliContext) (rs : List AliveResult)
    (st : ServerMap × Bool) : ServerMap × Bool :=
  rs.foldl (pingStep ovf cliCtx) st

/-- The entry stored for `host` after the results `rs` were consumed starting from an
empty map and a cleared stop flag. -/
def finalStats (ovf : Nat) (cliCtx : CliContext) (host : String)
    (rs : List AliveResult) : Option serverStats :=
  (foldPingInfo ovf cliCtx rs (emptyServerMap, false)).1 host

/-! ## Reference quantities for a sequence of results -/

/-- A successful result for `host` with round-trip time `d` nanoseconds. -/
def okResult (host : String) (d : Int) : AliveResult :=
  { Endpoint := { Scheme := "http", Host := host }, ResponseTime := d, Error := none }

/-- A failed result for `host` with error text `msg`. -/
def failResult (host : String) (msg : String) : AliveResult :=
  { Endpoint := { Scheme := "http", Host := host }, ResponseTime := 0, Error := some msg }

/-- Whether a result carries an error. -/
def isFailure (r : AliveResult) : Bool := r.Error.isSome

/-- The `uint64` durations of the successful results, in order. -/
def okDurations (rs : List AliveResult) : List Nat :=
  (rs.filter (fun r => !isFailure r)).map (fun r => toUint64 r.ResponseTime)

/-- Length of the longest suffix of `rs` made of failures only. -/
def trailingFailures (rs : List AliveResult) : Nat :=
  (rs.reverse.takeWhile isFailure).length

/-- The least element of a list of naturals (`0` for the empty list). -/
def seqMin : List Nat → Nat
  | [] => 0
  | d :: ds => ds.foldl min d

/-- The greatest element of a list of naturals (`0` for the empty list). -/
def seqMax : List Nat → Nat
  | [] => 0
  | d :: ds => ds.foldl max d

/-- A `uint64` that `float64` represents exactly. -/
def ExactF64 (n : Nat) : Prop := float64OfUint64 n = n

instance (n : Nat) : Decidable (ExactF64 n) := by
  unfold ExactF64; infer_instance

/-! ## Library functions used by the code -/

/-- Functions of the Go standard library that the code calls and that are taken as
parameters: `url.Parse`, `net.SplitHostPort`, `(*url.URL).String`, the printer
`d.Round(time.Microsecond).String()` of a `time.Duration`, and the value the platform
gives to `uint64(f)` when the double `f` is `2 ^ 64`. -/
structure GoLib where
  urlParse : String → Except String URL
  splitHostPort : String → Except String (String × String)
  urlString : URL → String
  durationString : Int → String
  f64Overflow : Nat

/-- Go's conversion `int64(n)` of a `uint64`, used by `time.Duration(stat.min)`. -/
def toInt64 (n : Nat) : Int :=
  if n % u64Size < 2 ^ 63 then ((n % u64Size : Nat) : Int)
  else ((n % u64Size : Nat) : Int) - (u64Size : Int)

/-- The function `strconv.Itoa`. -/
def itoa (i : Int) : String := toString i

/-- The function `strings.HasPrefix`. -/
def hasPrefix (s p : String) : Bool := p.data.isPrefixOf s.data

/-- The function `strings.Contains`. -/
def stringsContains (s sub : String) : Bool := s.data.tails.any (fun t => sub.data.isPrefixOf t)

/-! ## `extractHostPort`, `ping`, `mainPing` -/

/-- The function `extractHostPort`; `url.Parse` and `net.SplitHostPort` come from
`lib`. The result is `(host, port)` or the error text. -/
def extractHostPort (lib : GoLib) (hostAddr : String) : Except String (String × String) :=
  if hostAddr = "" then
    Except.error "unable to process empty address"
  else
    let hostAddr :=
      if !hasPrefix hostAddr "http://" && !hasPrefix hostAddr "https://" then
        "//" ++ hostAddr
      else hostAddr
    match lib.urlParse hostAddr with
    | Except.error e => Except.error e
    | Except.ok u =>
      let addr := if u.Host = "" then hostAddr else u.Host
      let scheme := if u.Host = "" then "http" else u.Scheme
      match lib.splitHostPort addr with
      | Except.ok (host, port) => Except.ok (host, port)
      | Except.error err =>
        if !stringsContains err "missing port in address" then
          Except.error err
        else if scheme = "https" then
          Except.ok (addr, "443")
        else if scheme = "http" then
          Except.ok (addr, "80")
        else
          Except.error "unable to guess port from scheme"

/-- The Go type `Endpoint`. -/
structure Endpoint where
  Scheme : String
  Host : String
  Port : String
  deriving DecidableEq, Repr

/-- The Go type `EndPointStats`. -/
structure EndPointStats where
  Endpoint : Endpoint
  Min : String
  Max : String
  Average : String
  CountErr : String
  Error : String
  Roundtrip : String
  deriving DecidableEq, Repr

/-- The Go type `PingResult`. -/
structure PingResult where
  Status : String
  Counter : String
  EndPointsStats : List EndPointStats
  deriving DecidableEq, Repr

/-- One iteration of the `for result := range anonClient.Alive(...)` loop of `ping`,
on the triple of `endPointStats`, `endPointMap` and the global `stop`. -/
def pingBody (lib : GoLib) (cliCtx : CliContext)
    (acc : List EndPointStats × ServerMap × Bool) (result : AliveResult) :
    List EndPointStats × ServerMap × Bool :=
  let hp : String × String :=
    match extractHostPort lib (lib.urlString result.Endpoint) with
    | Except.ok p => p
    | Except.error _ => ("", "")
  let endPoint : Endpoint := { Scheme := result.Endpoint.Scheme, Host := hp.1, Port := hp.2 }
  let r := getPingInfo lib.f64Overflow cliCtx result acc.2.1 acc.2.2
  let stat := r.1
  let endPointStat : EndPointStats :=
    { Endpoint := endPoint,
      Min := lib.durationString (toInt64 stat.min),
      Max := lib.durationString (toInt64 stat.max),
      Average := lib.durationString (toInt64 stat.avg),
      CountErr := itoa stat.errorCount,
      Error := stat.err,
      Roundtrip := lib.durationString result.ResponseTime }
  (acc.1 ++ [endPointStat], mapStore acc.2.1 result.Endpoint.Host stat, r.2)

/-- The function `ping`. `results` is what the channel `anonClient.Alive(...)` delivers
in this round; the server list built from `distributed` only decides what arrives. The returned triple is the updated `endPointMap`, the updated global
`stop`, and the message handed to `printMsg`. The closing `time.Sleep` changes none of
them and is left out. -/
def ping (lib : GoLib) (cliCtx : CliContext) (results : List AliveResult)
    (endPointMap : ServerMap) (stop : Bool) (index : Int) : ServerMap × Bool × PingResult :=
  let acc := results.foldl (pingBody lib cliCtx) ([], endPointMap, stop)
  (acc.2.1, acc.2.2,
    { Status := "success", Counter := itoa index, EndPointsStats := acc.1 })

/-- The environment of one run of `mainPing`: `alive i` is the sequence of results the
probe stream delivers to the call `ping(..., index = i)`, and `done i` tells, for the
loop iteration that starts with `index = i`, whether `globalContext.Done()` is closed
there, and if so the text of `globalContext.Err()`. -/
structure PingEnv where
  alive : Int → List AliveResult
  done : Int → Option String

/-- The variables of the loops of `mainPing`: the statistics map, the global `stop`,
`index`, and the messages printed so far (one per call of `ping`). -/
structure PingState where
  serverMap : ServerMap
  stop : Bool
  index : Int
  out : List PingResult

/-- The two statements `ping(ctx, cliCtx, anonClient, admInfo, serverMap, index)` and
`index++`. -/
def pingRound (lib : GoLib) (env : PingEnv) (cliCtx : CliContext) (st : PingState) :
    PingState :=
  let r := ping lib cliCtx (env.alive st.index) st.serverMap st.stop st.index
  { serverMap := r.1, stop := r.2.1, index := st.index + 1, out := st.out ++ [r.2.2] }

/-- The loop `for index <= count { if stop { return nil }; ping(...); index++ }`. The
result is the state in which the loop is left; `none` means the fuel ran out. -/
def countLoop (lib : GoLib) (env : PingEnv) (cliCtx : CliContext) (count : Int) :
    Nat → PingState → Option PingState
  | 0, _ => none
  | fuel + 1, st =>
    if st.index ≤ count then
      if st.stop = true then some st
      else countLoop lib env cliCtx count fuel (pingRound lib env cliCtx st)
    else some st

/-- The loop `for { select { case <-globalContext.Done(): return globalContext.Err()
default: if stop { return nil }; ping(...); index++ } }`. The result is the state in
which the loop is left and the returned error (`none` for `nil`); the outer `none`
means the fuel ran out. -/
def foreverLoop (lib : GoLib) (env : PingEnv) (cliCtx : CliContext) :
    Nat → PingState → Option (PingState × Option String)
  | 0, _ => none
  | fuel + 1, st =>
    match env.done st.index with
    | some e => some (st, some e)
    | none =>
      if st.stop = true then some (st, none)
      else foreverLoop lib env cliCtx fuel (pingRound lib env cliCtx st)

/-- How a run of `mainPing` ends: it returns an error value (`none` for `nil`), or
`fatalIf` ends the process with a message. -/
inductive Outcome where
  | returned (err : Option String)
  | fatal (msg : String)
  deriving DecidableEq, Repr

/-- Modelled from the spec: `fatalIf` and `errInvalidArgument` are defined in the
repository outside the given sources. `errInvalidArgument()` is a non-nil error and
`fatalIf` with a non-nil error reports the message and ends the process: a
configuration error is "fatal, reported immediately, no probing attempted". -/
def fatalInvalidArgument (msg : String) (out : List PingResult) : Outcome × List PingResult :=
  (Outcome.fatal msg, out)

/-- The state in which `mainPing` enters its loops: `serverMap := make(...)`,
`index := 1`, the global `stop` at its zero value, nothing printed. -/
def initialPingState : PingState :=
  { serverMap := emptyServerMap, stop := false, index := 1, out := [] }

/-- The function `mainPing` from `serverMap := make(map[string]serverStats)` on, that
is after the clients were built. The result is the outcome and the printed messages;
`none` means the fuel of the unbounded loop ran out. The counted loop gets `count + 1`
units of fuel, one more than its number of iterations. -/
def mainPing (lib : GoLib) (env : PingEnv) (cliCtx : CliContext) (fuel : Nat) :
    Option (Outcome × List PingResult) :=
  if cliCtx.countSet = true then
    let count := cliCtx.count
    if count < 1 then
      some (fatalInvalidArgument "ping count cannot be less than 1" [])
    else
      match countLoop lib env cliCtx count (count.toNat + 1) initialPingState with
      | some st => some (Outcome.returned none, st.out)
      | none => none
  else
    match foreverLoop lib env cliCtx fuel initialPingState with
    | some (st, e) => some (Outcome.returned e, st.out)
    | none => none

/-! ## `NewAdminFactory` -/

/-- The fields of the Go type `Config` that `NewAdminFactory` reads. -/
structure Config where
  HostURL : String
  AccessKey : String
  SecretKey : String
  SessionToken : String
  Insecure : Bool
  Debug : Bool
  AppName : String
  AppVersion : String
  deriving DecidableEq, Repr

/-- The value built by `credentials.NewStaticV4(accessKey, secretKey, sessionToken)`. -/
structure Credentials where
  AccessKey : String
  SecretKey : String
  SessionToken : String
  deriving DecidableEq, Repr

/-- The Go type `madmin.Options`. -/
structure Options where
  Creds : Credentials
  Secure : Bool
  deriving DecidableEq, Repr

/-- The `http.Transport` the factory builds, with the `tls.Config` it carries: times in
seconds, `tlsMinVersion` the TLS version number, `traced` whether the transport was
wrapped by `httptracer.GetNewTraceTransport`. -/
structure Transport where
  dialTimeout : Nat
  dialKeepAlive : Nat
  maxIdleConnsPerHost : Nat
  idleConnTimeout : Nat
  tlsHandshakeTimeout : Nat
  expectContinueTimeout : Nat
  tlsMinVersion : Nat
  insecureSkipVerify : Bool
  disableCompression : Bool
  traced : Bool
  deriving DecidableEq, Repr

/-- The constant `tls.VersionTLS12`. -/
def versionTLS12 : Nat := 0x0303

/-- A `madmin.AdminClient` as this file configures it: the arguments of
`madmin.NewWithOptions`, the transport given to `SetCustomTransport` and the strings
given to `SetAppInfo`. -/
structure AdminClient where
  endpoint : String
  opts : Options
  transport : Option Transport
  appName : String
  appVersion : String
  deriving DecidableEq, Repr

/-- The variables captured by the closure that `NewAdminFactory` returns. `heap` holds
the clients allocated so far; a `*madmin.AdminClient` is an index into it, so two
pointers are the same pointer exactly when the indices are equal. `clientCache` is the
Go map from `uint32` to such pointers. The mutex is held from the lookup to the return,
so calls act on this state one after the other. -/
structure FactoryState where
  clientCache : Nat → Option Nat
  heap : List AdminClient

/-- The 32-bit FNV-1a hash of a byte sequence, `fnv.New32a` with `Write` and `Sum32`. -/
def fnv32a (bs : List Nat) : Nat :=
  bs.foldl (fun h b => ((h ^^^ b) * 16777619) % 2 ^ 32) 2166136261

/-- The bytes of a string, `[]byte(s)`. -/
def stringBytes (s : String) : List Nat :=
  (s.data.flatMap String.utf8EncodeChar).map UInt8.toNat

/-- The cache key `confSum` of a host name and a configuration. -/
def confSum (hostName : String) (config : Config) : Nat :=
  fnv32a (stringBytes (hostName ++ config.AccessKey ++ config.SecretKey))

/-- The state captured by a fresh closure: `NewAdminFactory()` makes an empty map. -/
def NewAdminFactory : FactoryState :=
  { clientCache := fun _ => none, heap := [] }

/-- One call of the function returned by `NewAdminFactory`. `newWithOptions` is the
error returned by `madmin.NewWithOptions(hostName, opts)` (`none` for `nil`); when it
is `nil` the call yields a newly allocated client. The result `Except.error e` stands
for `(nil, probe.NewError(e))`, the result `Except.ok api` for `(api, nil)`. -/
def adminFactoryNew (lib : GoLib) (newWithOptions : String → Options → Option String)
    (σ : FactoryState) (config : Config) : Except String Nat × FactoryState :=
  match lib.urlParse config.HostURL with
  | Except.error e => (Except.error e, σ)
  | Except.ok targetURL =>
    let useTLS := if targetURL.Scheme = "http" then false else true
    let hostName := targetURL.Host
    let key := confSum hostName config
    match σ.clientCache key with
    | some api => (Except.ok api, σ)
    | none =>
      let creds : Credentials :=
        { AccessKey := config.AccessKey, SecretKey := config.SecretKey,
          SessionToken := config.SessionToken }
      let opts : Options := { Creds := creds, Secure := useTLS }
      match newWithOptions hostName opts with
      | some e => (Except.error e, σ)
      | none =>
        let transport : Transport :=
          { dialTimeout := 10, dialKeepAlive := 15, maxIdleConnsPerHost := 256,
            idleConnTimeout := 90, tlsHandshakeTimeout := 10, expectContinueTimeout := 10,
            tlsMinVersion := versionTLS12,
            insecureSkipVerify := config.Insecure,
            disableCompression := true,
            traced := config.Debug }
        let client : AdminClient :=
          { endpoint := hostName, opts := opts, transport := some transport,
            appName := config.AppName, appVersion := config.AppVersion }
        let api := σ.heap.length
        (Except.ok api,
          { clientCache := fun k => if k = key then some api else σ.clientCache k,
            heap := σ.heap ++ [client] })

/-- The state and the results after the calls `configs`, made one after the other. -/
def adminFactoryRun (lib : GoLib) (newWithOptions : String → Options → Option String)
    (σ : FactoryState) (configs : List Config) : FactoryState :=
  configs.foldl (fun s cfg => (adminFactoryNew lib newWithOptions s cfg).2) σ

/-! ## A library instance for concrete runs -/

/-- Splits `scheme://rest` at the first `://`. -/
def splitScheme : List Char → List Char → Option (List Char × List Char)
  | acc, ':' :: '/' :: '/' :: rest => some (acc.reverse, rest)
  | acc, c :: rest => splitScheme (c :: acc) rest
  | _, [] => none

/-- The authority of `authority` or `authority/path`. -/
def authorityOf (rest : List Char) : String :=
  String.mk (rest.takeWhile (fun c => c ≠ '/'))

/-- What `url.Parse` returns for an address of the shape `//authority[/path]` (empty
scheme) or `scheme://authority[/path]`, without user information, query or fragment:
the scheme and the authority; and its error for an address that starts with `://`.
Other addresses are outside this instance and are rejected. -/
def parseSimpleURL (s : String) : Except String URL :=
  match s.data with
  | '/' :: '/' :: rest => Except.ok { Scheme := "", Host := authorityOf rest }
  | cs =>
    match splitScheme [] cs with
    | some ([], _) => Except.error "missing protocol scheme"
    | some (scheme, rest) => Except.ok { Scheme := String.mk scheme, Host := authorityOf rest }
    | none => Except.error "parse: address outside the instance"

/-- What `net.SplitHostPort` returns for `host:port` with a single colon, and its error
for an address without colon. -/
def splitHostPortSimple (addr : String) : Except String (String × String) :=
  if addr.data.contains ':' then
    Except.ok (String.mk (addr.data.takeWhile (fun c => c ≠ ':')),
      String.mk ((addr.data.dropWhile (fun c => c ≠ ':')).drop 1))
  else Except.error ("address " ++ addr ++ ": missing port in address")

/-- A library instance for concrete runs: the two parsers above, a URL printer for URLs
without path, durations printed as a count of nanoseconds, and `2 ^ 63` for the
out-of-range conversion. -/
def sampleLib : GoLib :=
  { urlParse := parseSimpleURL,
    splitHostPort := splitHostPortSimple,
    urlString := fun u => u.Scheme ++ "://" ++ u.Host,
    durationString := fun d => toString d ++ "ns",
    f64Overflow := 2 ^ 63 }

/-! ## Sample inputs -/

/-- A constructor `madmin.NewWithOptions` that never fails. -/
def alwaysConstructs : String → Options → Option String := fun _ _ => none

/-- A constructor `madmin.NewWithOptions` that always fails. -/
def neverConstructs : String → Options → Option String := fun _ _ => some "invalid endpoint"

/-- A configuration for the host `play.min.io:9000` over https. -/
def playConfig : Config :=
  { HostURL := "https://play.min.io:9000", AccessKey := "minioadmin",
    SecretKey := "minio-secret", SessionToken := "", Insecure := false, Debug := false,
    AppName := "mc", AppVersion := "1" }

/-- The host and keys of `playConfig` with every other field changed. -/
def playConfigHttp : Config :=
  { HostURL := "http://play.min.io:9000/", AccessKey := "minioadmin",
    SecretKey := "minio-secret", SessionToken := "token", Insecure := true, Debug := true,
    AppName := "other", AppVersion := "2" }

/-- A configuration for another host. -/
def otherConfig : Config :=
  { HostURL := "https://other.example", AccessKey := "minioadmin",
    SecretKey := "minio-secret", SessionToken := "", Insecure := false, Debug := false,
    AppName := "mc", AppVersion := "1" }

/-- A configuration with access key `ab` and secret key `c`. -/
def splitKeysA : Config :=
  { HostURL := "https://play.min.io:9000", AccessKey := "ab", SecretKey := "c",
    SessionToken := "", Insecure := false, Debug := false, AppName := "mc",
    AppVersion := "1" }

/-- A configuration with access key `a` and secret key `bc`. -/
def splitKeysB : Config :=
  { HostURL := "https://play.min.io:9000", AccessKey := "a", SecretKey := "bc",
    SessionToken := "", Insecure := false, Debug := false, AppName := "mc",
    AppVersion := "1" }

/-- A configuration whose address has an empty scheme before `://`. -/
def badURLConfig : Config :=
  { HostURL := "://play.min.io", AccessKey := "minioadmin", SecretKey := "minio-secret",
    SessionToken := "", Insecure := false, Debug := false, AppName := "mc",
    AppVersion := "1" }

/-- An environment in which every round delivers one 5ns success for host `h` and the
context is never cancelled. -/
def healthyEnv : PingEnv :=
  { alive := fun _ => [okResult "h" 5], done := fun _ => none }

/-- An environment in which every round delivers one failure for host `h` and the
context is never cancelled. -/
def failingEnv : PingEnv :=
  { alive := fun _ => [failResult "h" "connection refused"], done := fun _ => none }

/-- The command line `--count n`. -/
def countFlags (n : Int) : CliContext :=
  { countSet := true, count := n, errorCountSet := false, errorCount := 0,
    interval := 1, distributed := false }

/-- The command line `--count n --error-count e`. -/
def countErrorFlags (n e : Int) : CliContext :=
  { countSet := true, count := n, errorCountSet := true, errorCount := e,
    interval := 1, distributed := false }

/-- The command line `--error-count e`. -/
def errorFlags (e : Int) : CliContext :=
  { countSet := false, count := 0, errorCountSet := true, errorCount := e,
    interval := 1, distributed := false }

/-- Cache soundness of a factory state: every cached handle points into the heap and
is cached under one key only. -/
def FactoryState.Sound (σ : FactoryState) : Prop :=
  ∀ k a, σ.clientCache k = some a →
    a < σ.heap.length ∧ ∀ k2, σ.clientCache k2 = some a → k2 = k

/-! ## Locals of `extractHostPort` -/

/-- The address `extractHostPort` hands to `url.Parse`: the given one when it starts
with `http://` or `https://`, otherwise the given one behind `//`. -/
def prefixedAddr (hostAddr : String) : String :=
  if !hasPrefix hostAddr "http://" && !hasPrefix hostAddr "https://" then
    "//" ++ hostAddr
  else hostAddr

/-- The local `addr` of `extractHostPort` after the fallback: the parsed authority, or
the address handed to `url.Parse` when the authority is empty. -/
def addrOf (hostAddr : String) (u : URL) : String :=
  if u.Host = "" then prefixedAddr hostAddr else u.Host

/-- The local `scheme` of `extractHostPort` after the fallback: the parsed scheme, or
`http` when the parsed authority is empty. -/
def schemeOf (u : URL) : String :=
  if u.Host = "" then "http" else u.Scheme

/-- An environment in which the context is cancelled before the first round, so that
`globalContext.Done()` is closed at every loop head, and the probe stream delivers
nothing. -/
def cancelledEnv : PingEnv :=
  { alive := fun _ => [], done := fun _ => some "context canceled" }

/-! ## Arithmetic facts -/

theorem toUint64_lt (x : Int) : toUint64 x < u64Size := by
  have hpos : (0 : Int) < (u64Size : Int) := by
    have : 0 < u64Size := by decide
    exact_mod_cast this
  have h1 := Int.emod_lt_of_pos x hpos
  have h0 := Int.emod_nonneg x (ne_of_gt hpos)
  unfold toUint64
  omega

theorem toUint64_of_nonneg (x : Int) (h0 : 0 ≤ x) (h1 : x < 2 ^ 64) :
    toUint64 x = x.toNat := by
  have h2 : x < (u64Size : Int) := by
    have : ((2 ^ 64 : Nat) : Int) = 2 ^ 64 := by norm_num
    unfold u64Size
    rw [this]
    exact h1
  unfold toUint64
  rw [Int.emod_eq_of_lt h0 h2]

theorem exactF64_of_le (n : Nat) (h : n ≤ 2 ^ 53) : ExactF64 n := by
  rcases Nat.lt_or_ge n (2 ^ 53) with h1 | h1
  · have hk : roundShift 11 n = 0 := by
      unfold roundShift
      rw [if_pos h1]
    simp [ExactF64, float64OfUint64, hk, Nat.mod_one]
  · have : n = 2 ^ 53 := Nat.le_antisymm h h1
    subst this
    decide

theorem mathMinU64_exact (ovf a b : Nat) (ha : ExactF64 a) (hb : ExactF64 b)
    (hlt : b < u64Size) : mathMinU64 ovf a b = min a b := by
  unfold ExactF64 at ha hb
  have : min a b < u64Size := lt_of_le_of_lt (min_le_right a b) hlt
  simp [mathMinU64, uint64OfFloat64, ha, hb, this]

theorem mathMaxU64_exact (ovf a b : Nat) (ha : ExactF64 a) (hb : ExactF64 b)
    (hlta : a < u64Size) (hlt : b < u64Size) : mathMaxU64 ovf a b = max a b := by
  unfold ExactF64 at ha hb
  have : max a b < u64Size := max_lt hlta hlt
  simp [mathMaxU64, uint64OfFloat64, ha, hb, this]

theorem mathMinU64_maxUint64 (ovf b : Nat) (hb : ExactF64 b) (hlt : b < u64Size) :
    mathMinU64 ovf maxUint64 b = b := by
  unfold ExactF64 at hb
  have h1 : float64OfUint64 maxUint64 = u64Size := by decide
  have h2 : min u64Size b = b := min_eq_right (Nat.le_of_lt hlt)
  simp [mathMinU64, uint64OfFloat64, hb, h1, h2, hlt]

theorem finalStats_snoc (ovf : Nat) (c : CliContext) (h : String) (rs : List AliveResult)
    (r : AliveResult) (hr : r.Endpoint.Host = h) :
    finalStats ovf c h (rs ++ [r]) =
      some (getPingInfo ovf c r (foldPingInfo ovf c rs (emptyServerMap, false)).1
        (foldPingInfo ovf c rs (emptyServerMap, false)).2).1 := by
  simp [finalStats, foldPingInfo, List.foldl_append, pingStep, mapStore, hr]

theorem okDurations_snoc (rs : List AliveResult) (r : AliveResult) :
    okDurations (rs ++ [r]) =
      if isFailure r then okDurations rs else okDurations rs ++ [toUint64 r.ResponseTime] := by
  cases h : isFailure r <;> simp [okDurations, List.filter_append, h]

theorem trailingFailures_snoc (rs : List AliveResult) (r : AliveResult) :
    trailingFailures (rs ++ [r]) = if isFailure r then trailingFailures rs + 1 else 0 := by
  cases h : isFailure r <;> simp [trailingFailures, List.takeWhile_cons, h]

/-! ## Least and greatest element of a list -/

theorem foldl_min_le_init (ds : List Nat) (a : Nat) : ds.foldl min a ≤ a := by
  induction ds generalizing a with
  | nil => simp
  | cons x xs ih => exact le_trans (ih (min a x)) (min_le_left a x)

theorem foldl_min_le_mem (ds : List Nat) (a d : Nat) (hd : d ∈ ds) : ds.foldl min a ≤ d := by
  induction ds generalizing a with
  | nil => cases hd
  | cons x xs ih =>
    rcases List.mem_cons.mp hd with h | h
    · subst h
      exact le_trans (foldl_min_le_init xs (min a d)) (min_le_right a d)
    · exact ih (min a x) h

theorem foldl_min_mem (ds : List Nat) (a : Nat) : ds.foldl min a ∈ a :: ds := by
  induction ds generalizing a with
  | nil => simp
  | cons x xs ih =>
    have h := ih (min a x)
    rcases List.mem_cons.mp h with h1 | h1
    · show List.foldl min (min a x) xs ∈ a :: x :: xs
      rw [h1]
      rcases min_choice a x with h2 | h2 <;> rw [h2] <;> simp
    · simp only [List.foldl_cons]
      exact List.mem_cons_of_mem _ (List.mem_cons_of_mem _ h1)

theorem le_foldl_max_init (ds : List Nat) (a : Nat) : a ≤ ds.foldl max a := by
  induction ds generalizing a with
  | nil => simp
  | cons x xs ih => exact le_trans (le_max_left a x) (ih (max a x))

theorem le_foldl_max_mem (ds : List Nat) (a d : Nat) (hd : d ∈ ds) : d ≤ ds.foldl max a := by
  induction ds generalizing a with
  | nil => cases hd
  | cons x xs ih =>
    rcases List.mem_cons.mp hd with h | h
    · subst h
      exact le_trans (le_max_right a d) (le_foldl_max_init xs (max a d))
    · exact ih (max a x) h

theorem foldl_max_mem (ds : List Nat) (a : Nat) : ds.foldl max a ∈ a :: ds := by
  induction ds generalizing a with
  | nil => simp
  | cons x xs ih =>
    have h := ih (max a x)
    rcases List.mem_cons.mp h with h1 | h1
    · show List.foldl max (max a x) xs ∈ a :: x :: xs
      rw [h1]
      rcases max_choice a x with h2 | h2 <;> rw [h2] <;> simp
    · simp only [List.foldl_cons]
      exact List.mem_cons_of_mem _ (List.mem_cons_of_mem _ h1)

theorem seqMin_snoc (ds : List Nat) (d : Nat) (h : ds ≠ []) :
    seqMin (ds ++ [d]) = min (seqMin ds) d := by
  cases ds with
  | nil => exact absurd rfl h
  | cons x xs => simp [seqMin, List.foldl_append]

theorem seqMax_snoc (ds : List Nat) (d : Nat) (h : ds ≠ []) :
    seqMax (ds ++ [d]) = max (seqMax ds) d := by
  cases ds with
  | nil => exact absurd rfl h
  | cons x xs => simp [seqMax, List.foldl_append]

theorem seqMin_mem (ds : List Nat) (h : ds ≠ []) : seqMin ds ∈ ds := by
  cases ds with
  | nil => exact absurd rfl h
  | cons x xs => exact foldl_min_mem xs x

theorem seqMax_mem (ds : List Nat) (h : ds ≠ []) : seqMax ds ∈ ds := by
  cases ds with
  | nil => exact absurd rfl h
  | cons x xs => exact foldl_max_mem xs x

theorem seqMin_le (ds : List Nat) (d : Nat) (hd : d ∈ ds) : seqMin ds ≤ d := by
  cases ds with
  | nil => cases hd
  | cons x xs =>
    rcases List.mem_cons.mp hd with h | h
    · subst h; exact foldl_min_le_init xs d
    · exact foldl_min_le_mem xs x d h

theorem le_seqMax (ds : List Nat) (d : Nat) (hd : d ∈ ds) : d ≤ seqMax ds := by
  cases ds with
  | nil => cases hd
  | cons x xs =>
    rcases List.mem_cons.mp hd with h | h
    · subst h; exact le_foldl_max_init xs d
    · exact le_foldl_max_mem xs x d h

/-! ## Invariants of the fold of `getPingInfo` -/

theorem finalStats_counts (ovf : Nat) (c : CliContext) (h : String) (rs : List AliveResult)
    (hh : ∀ r ∈ rs, r.Endpoint.Host = h) (hne : rs ≠ []) :
    ∃ s, finalStats ovf c h rs = some s ∧
      s.counter = ((okDurations rs).length : Int) ∧
      s.sum = (okDurations rs).sum % u64Size ∧
      s.errorCount = (trailingFailures rs : Int) ∧
      s.avg = s.sum / s.counter.toNat := by
  induction rs using List.reverseRecOn with
  | nil => exact absurd rfl hne
  | append_singleton l a ih =>
    have ha : a.Endpoint.Host = h := hh a (by simp)
    have hl : ∀ r ∈ l, r.Endpoint.Host = h := fun r hr => hh r (by simp [hr])
    rw [finalStats_snoc _ _ _ _ _ ha, okDurations_snoc, trailingFailures_snoc]
    by_cases hnil : l = []
    · subst hnil
      have hlt := toUint64_lt a.ResponseTime
      cases hE : a.Error with
      | none =>
        simp [foldPingInfo, getPingInfo, hE, emptyServerMap, isFailure, okDurations,
          trailingFailures, Nat.mod_eq_of_lt hlt]
      | some msg =>
        simp [foldPingInfo, getPingInfo, hE, emptyServerMap, isFailure, okDurations,
          trailingFailures]
    · obtain ⟨s, hs, h1, h2, h3, h4⟩ := ih hl hnil
      have hm : (foldPingInfo ovf c l (emptyServerMap, false)).1 a.Endpoint.Host = some s := by
        rw [ha]; exact hs
      cases hE : a.Error with
      | none =>
        simp [getPingInfo, hE, hm, isFailure, h1, h2]
      | some msg =>
        simp [getPingInfo, hE, hm, isFailure, h1, h2, h3, h4]


theorem okDurations_lt (rs : List AliveResult) (d : Nat) (hd : d ∈ okDurations rs) :
    d < u64Size := by
  unfold okDurations at hd
  obtain ⟨r, _, hr⟩ := List.mem_map.mp hd
  rw [← hr]
  exact toUint64_lt r.ResponseTime

theorem finalStats_minmax (ovf : Nat) (c : CliContext) (h : String) (rs : List AliveResult)
    (hh : ∀ r ∈ rs, r.Endpoint.Host = h) (hne : rs ≠ [])
    (hd : ∀ d ∈ okDurations rs, 0 < d ∧ ExactF64 d) :
    ∃ s, finalStats ovf c h rs = some s ∧
      s.min = seqMin (okDurations rs) ∧ s.max = seqMax (okDurations rs) := by
  induction rs using List.reverseRecOn with
  | nil => exact absurd rfl hne
  | append_singleton l a ih =>
    have ha : a.Endpoint.Host = h := hh a (by simp)
    have hl : ∀ r ∈ l, r.Endpoint.Host = h := fun r hr => hh r (by simp [hr])
    have hlt := toUint64_lt a.ResponseTime
    have h0 : ExactF64 0 := exactF64_of_le 0 (by norm_num)
    rw [okDurations_snoc] at hd
    rw [finalStats_snoc _ _ _ _ _ ha, okDurations_snoc]
    cases hE : a.Error with
    | some msg =>
      have hf : isFailure a = true := by simp [isFailure, hE]
      rw [hf] at hd
      simp only [hf, if_true] at hd ⊢
      by_cases hnil : l = []
      · subst hnil
        simp [foldPingInfo, getPingInfo, hE, emptyServerMap, okDurations, seqMin, seqMax]
      · obtain ⟨s, hs, h1, h2⟩ := ih hl hnil hd
        have hm : (foldPingInfo ovf c l (emptyServerMap, false)).1 a.Endpoint.Host = some s := by
          rw [ha]; exact hs
        simp [getPingInfo, hE, hm, h1, h2]
    | none =>
      have hf : isFailure a = false := by simp [isFailure, hE]
      simp only [hf] at hd ⊢
      have hda : 0 < toUint64 a.ResponseTime ∧ ExactF64 (toUint64 a.ResponseTime) :=
        hd _ (by simp)
      have hdl : ∀ d ∈ okDurations l, 0 < d ∧ ExactF64 d := fun d hm => hd d (by simp [hm])
      by_cases hnil : l = []
      · subst hnil
        simp [foldPingInfo, getPingInfo, hE, emptyServerMap, okDurations, seqMin, seqMax,
          mathMinU64_maxUint64 ovf _ hda.2 hlt,
          mathMaxU64_exact ovf 0 _ h0 hda.2 (by decide) hlt]
      · obtain ⟨s, hs, h1, h2⟩ := ih hl hnil hdl
        have hm : (foldPingInfo ovf c l (emptyServerMap, false)).1 a.Endpoint.Host = some s := by
          rw [ha]; exact hs
        by_cases hds : okDurations l = []
        · rw [hds] at h1 h2
          have h1' : s.min = 0 := h1
          have h2' : s.max = 0 := h2
          simp [getPingInfo, hE, hm, h1', h2', hds, seqMin, seqMax,
            mathMinU64_exact ovf _ _ hda.2 hda.2 hlt,
            mathMaxU64_exact ovf 0 _ h0 hda.2 (by decide) hlt]
        · have hmin := seqMin_mem _ hds
          have hmax := seqMax_mem _ hds
          have hminpos : seqMin (okDurations l) ≠ 0 :=
            Nat.pos_iff_ne_zero.mp (hdl _ hmin).1
          have e1 : ExactF64 (seqMin (okDurations l)) := (hdl _ hmin).2
          have e2 : ExactF64 (seqMax (okDurations l)) := (hdl _ hmax).2
          have l2 : seqMax (okDurations l) < u64Size := okDurations_lt _ _ hmax
          simp [getPingInfo, hE, hm, hminpos, seqMin_snoc _ _ hds, seqMax_snoc _ _ hds,
            mathMinU64_exact ovf _ _ e1 hda.2 hlt,
            mathMaxU64_exact ovf _ _ e2 hda.2 l2 hlt, h1, h2]

/-! ## The loop of `ping` and the fold of `getPingInfo` -/

theorem foldl_pingBody_snd (lib : GoLib) (c : CliContext) (rs : List AliveResult)
    (l : List EndPointStats) (st : ServerMap × Bool) :
    (rs.foldl (pingBody lib c) (l, st)).2 = foldPingInfo lib.f64Overflow c rs st := by
  induction rs generalizing l st with
  | nil => rfl
  | cons r rs ih =>
    simp only [List.foldl_cons, foldPingInfo]
    exact ih _ _

theorem ping_eq_foldPingInfo (lib : GoLib) (c : CliContext) (rs : List AliveResult)
    (m : ServerMap) (stop : Bool) (index : Int) :
    ((ping lib c rs m stop index).1, (ping lib c rs m stop index).2.1) =
      foldPingInfo lib.f64Overflow c rs (m, stop) := by
  have := foldl_pingBody_snd lib c rs [] (m, stop)
  simp only [ping]
  rw [← this]

theorem fnv32a_test_vectors :
    fnv32a (stringBytes "") = 0x811c9dc5 ∧ fnv32a (stringBytes "a") = 0xe40c292c ∧
      fnv32a (stringBytes "foobar") = 0xbf9cf968 := by
  decide

/-! ## Claims about the statistics aggregator -/

theorem okDurations_of_success (rs : List AliveResult)
    (hs : ∀ r ∈ rs, r.Error = none ∧ 0 ≤ r.ResponseTime ∧ r.ResponseTime < 2 ^ 63) :
    okDurations rs = rs.map (fun r => r.ResponseTime.toNat) := by
  induction rs with
  | nil => rfl
  | cons a l ih =>
    have h1 := hs a (by simp)
    have h2 := ih (fun r hr => hs r (by simp [hr]))
    have h3 : toUint64 a.ResponseTime = a.ResponseTime.toNat :=
      toUint64_of_nonneg _ h1.2.1 (lt_trans h1.2.2 (by norm_num))
    simp only [okDurations, isFailure] at h2 ⊢
    simp only [List.filter_cons, h1.1, Option.isSome_none, Bool.not_false, if_true,
      List.map_cons, h2, h3]

theorem trailingFailures_of_last_success (rs : List AliveResult)
    (h : rs.getLast?.map isFailure = some false) : trailingFailures rs = 0 := by
  rcases List.eq_nil_or_concat rs with rfl | ⟨l, a, rfl⟩
  · simp at h
  · rw [List.concat_eq_append] at h ⊢
    rw [trailingFailures_snoc]
    simp at h
    simp [h]

/-- C1 (counterexamples): the claim fails for a zero duration followed by a positive
one (the stored minimum `0` is read as "no minimum yet"), for a duration that `float64`
cannot represent, and for durations whose total reaches `2 ^ 64`. -/
theorem getPingInfo_success_sequence_counterexample :
    (¬ ∃ s, finalStats 0 defaultFlags "h" [okResult "h" 0, okResult "h" 5] = some s ∧
        s.min = seqMin [0, 5]) ∧
    (¬ ∃ s, finalStats 0 defaultFlags "h" [okResult "h" 9007199254740993] = some s ∧
        s.min = seqMin [9007199254740993]) ∧
    (¬ ∃ s, finalStats 0 defaultFlags "h"
          [okResult "h" 4611686018427387904, okResult "h" 4611686018427387904, okResult "h" 4611686018427387904,
            okResult "h" 4611686018427387904] = some s ∧
        s.avg = (4611686018427387904 + 4611686018427387904 + 4611686018427387904 +
          4611686018427387904) / 4) := by
  refine ⟨?_, ?_, ?_⟩
  · rintro ⟨s, hs, hmin⟩
    have e : finalStats 0 defaultFlags "h" [okResult "h" 0, okResult "h" 5] =
        some ⟨5, 5, 5, 2, 0, "", 2⟩ := rfl
    rw [e] at hs
    cases hs
    revert hmin
    decide
  · rintro ⟨s, hs, hmin⟩
    have e : finalStats 0 defaultFlags "h" [okResult "h" 9007199254740993] =
        some ⟨9007199254740992, 9007199254740992, 9007199254740993, 9007199254740993,
          0, "", 1⟩ := rfl
    rw [e] at hs
    cases hs
    revert hmin
    decide
  · rintro ⟨s, hs, havg⟩
    have e : finalStats 0 defaultFlags "h"
          [okResult "h" 4611686018427387904, okResult "h" 4611686018427387904, okResult "h" 4611686018427387904,
            okResult "h" 4611686018427387904] = some ⟨4611686018427387904, 4611686018427387904, 0, 0, 0, "", 4⟩ := rfl
    rw [e] at hs
    cases hs
    revert havg
    decide

/-- C1 (amended): for a non-empty sequence of successful results for one host whose
durations are positive, exactly representable as `float64` and of total below `2 ^ 64`,
the final entry has the true minimum, the true maximum, the floor of the mean as `avg`
and `errorCount = 0`. -/
theorem getPingInfo_success_sequence (ovf : Nat) (c : CliContext) (h : String)
    (rs : List AliveResult) (hne : rs ≠ [])
    (hs : ∀ r ∈ rs, r.Endpoint.Host = h ∧ r.Error = none ∧ 0 < r.ResponseTime ∧
      r.ResponseTime < 2 ^ 63 ∧ ExactF64 r.ResponseTime.toNat)
    (hsum : (rs.map (fun r => r.ResponseTime.toNat)).sum < 2 ^ 64) :
    ∃ s, finalStats ovf c h rs = some s ∧
      s.min = seqMin (rs.map (fun r => r.ResponseTime.toNat)) ∧
      s.max = seqMax (rs.map (fun r => r.ResponseTime.toNat)) ∧
      s.avg = (rs.map (fun r => r.ResponseTime.toNat)).sum / rs.length ∧
      s.errorCount = 0 := by
  have hok : okDurations rs = rs.map (fun r => r.ResponseTime.toNat) :=
    okDurations_of_success rs (fun r hr => ⟨(hs r hr).2.1, le_of_lt (hs r hr).2.2.1,
      (hs r hr).2.2.2.1⟩)
  have hh : ∀ r ∈ rs, r.Endpoint.Host = h := fun r hr => (hs r hr).1
  have hd : ∀ d ∈ okDurations rs, 0 < d ∧ ExactF64 d := by
    intro d hd
    rw [hok] at hd
    obtain ⟨r, hr, rfl⟩ := List.mem_map.mp hd
    have := hs r hr
    exact ⟨by omega, this.2.2.2.2⟩
  have hlast : rs.getLast?.map isFailure = some false := by
    rcases List.eq_nil_or_concat rs with rfl | ⟨l, a, rfl⟩
    · exact absurd rfl hne
    · rw [List.concat_eq_append] at hs ⊢
      have := (hs a (by simp)).2.1
      simp [isFailure, this]
  obtain ⟨s, e1, hc, hsm, he, ha⟩ := finalStats_counts ovf c h rs hh hne
  obtain ⟨s', e2, hmin, hmax⟩ := finalStats_minmax ovf c h rs hh hne hd
  rw [e1] at e2
  cases e2
  refine ⟨s, e1, ?_, ?_, ?_, ?_⟩
  · rw [hmin, hok]
  · rw [hmax, hok]
  · rw [ha, hsm, hc, hok]
    have : (rs.map (fun r => r.ResponseTime.toNat)).sum % u64Size =
        (rs.map (fun r => r.ResponseTime.toNat)).sum := Nat.mod_eq_of_lt hsum
    simp [this]
  · rw [he, trailingFailures_of_last_success rs hlast]
    rfl

/-- C1 (witness): 10ms, 30ms, 20ms give min 10ms, max 30ms, avg 20ms, no error. -/
theorem getPingInfo_success_sequence_witness :
    ∃ s, finalStats 0 defaultFlags "h"
        [okResult "h" 10000000, okResult "h" 30000000, okResult "h" 20000000] = some s ∧
      s.min = 10000000 ∧ s.max = 30000000 ∧ s.avg = 20000000 ∧ s.errorCount = 0 := by
  obtain ⟨s, hs, h1, h2, h3, h4⟩ := getPingInfo_success_sequence 0 defaultFlags "h"
    [okResult "h" 10000000, okResult "h" 30000000, okResult "h" 20000000]
    (by simp)
    (by
      intro r hr
      simp only [List.mem_cons, List.mem_singleton, List.not_mem_nil, or_false] at hr
      rcases hr with rfl | rfl | rfl <;>
        exact ⟨rfl, rfl, by decide, by decide, exactF64_of_le _ (by decide)⟩)
    (by decide)
  exact ⟨s, hs, h1.trans (by decide), h2.trans (by decide), h3.trans (by decide), h4⟩

/-- C2: a failed result carries the stored `min`, `max`, `sum`, `counter` and `avg`
forward, adds one to the stored `errorCount` and records the error text; with no
stored entry the numbers are all zero, `errorCount` is `1` and the text is recorded. -/
theorem getPingInfo_failure (ovf : Nat) (cliCtx : CliContext) (result : AliveResult)
    (serverMap : ServerMap) (stop : Bool) (msg : String) (hE : result.Error = some msg) :
    (∀ stat, serverMap result.Endpoint.Host = some stat →
      (getPingInfo ovf cliCtx result serverMap stop).1 =
        { min := stat.min, max := stat.max, sum := stat.sum, avg := stat.avg,
          errorCount := stat.errorCount + 1, err := msg, counter := stat.counter }) ∧
    (serverMap result.Endpoint.Host = none →
      (getPingInfo ovf cliCtx result serverMap stop).1 =
        { min := 0, max := 0, sum := 0, avg := 0, errorCount := 1, err := msg,
          counter := 0 }) := by
  constructor
  · intro stat hm
    simp [getPingInfo, hE, hm]
  · intro hm
    simp [getPingInfo, hE, hm]

/-- C2 (witness): a timeout on a host with a stored entry, and on an unknown host. -/
theorem getPingInfo_failure_witness :
    (getPingInfo 0 defaultFlags (failResult "h" "timeout")
        (mapStore emptyServerMap "h" ⟨3, 9, 12, 6, 2, "", 2⟩) false).1 =
      ⟨3, 9, 12, 6, 3, "timeout", 2⟩ ∧
    (getPingInfo 0 defaultFlags (failResult "h" "timeout") emptyServerMap false).1 =
      ⟨0, 0, 0, 0, 1, "timeout", 0⟩ :=
  ⟨(getPingInfo_failure 0 defaultFlags (failResult "h" "timeout")
      (mapStore emptyServerMap "h" ⟨3, 9, 12, 6, 2, "", 2⟩) false "timeout" rfl).1
      ⟨3, 9, 12, 6, 2, "", 2⟩ rfl,
   (getPingInfo_failure 0 defaultFlags (failResult "h" "timeout") emptyServerMap false
      "timeout" rfl).2 rfl⟩

/-- C3: after a non-empty sequence of results for one host, `errorCount` is the length
of the longest suffix made of failures only; it is `0` when the last result is a
success. -/
theorem errorCount_eq_trailingFailures (ovf : Nat) (c : CliContext) (h : String)
    (rs : List AliveResult) (hne : rs ≠ []) (hh : ∀ r ∈ rs, r.Endpoint.Host = h) :
    ∃ s, finalStats ovf c h rs = some s ∧
      s.errorCount = (trailingFailures rs : Int) ∧
      (rs.getLast?.map isFailure = some false → s.errorCount = 0) := by
  obtain ⟨s, e1, _, _, he, _⟩ := finalStats_counts ovf c h rs hh hne
  refine ⟨s, e1, he, fun hl => ?_⟩
  rw [he, trailingFailures_of_last_success rs hl]
  rfl

/-- C3 (witness): fail, fail, succeed(15ms) gives `errorCount` 1, then 2, then 0, and
the last entry has `avg` 15ms. -/
theorem errorCount_eq_trailingFailures_witness :
    (∃ s, finalStats 0 defaultFlags "h" [failResult "h" "down"] = some s ∧
      s.errorCount = 1) ∧
    (∃ s, finalStats 0 defaultFlags "h" [failResult "h" "down", failResult "h" "down"] =
      some s ∧ s.errorCount = 2) ∧
    (∃ s, finalStats 0 defaultFlags "h"
        [failResult "h" "down", failResult "h" "down", okResult "h" 15000000] = some s ∧
      s.errorCount = 0 ∧ s.avg = 15000000) := by
  refine ⟨?_, ?_, ?_⟩
  · obtain ⟨s, hs, h1, _⟩ := errorCount_eq_trailingFailures 0 defaultFlags "h"
      [failResult "h" "down"] (by simp)
      (by intro r hr; simp at hr; subst hr; rfl)
    exact ⟨s, hs, h1.trans (by decide)⟩
  · obtain ⟨s, hs, h1, _⟩ := errorCount_eq_trailingFailures 0 defaultFlags "h"
      [failResult "h" "down", failResult "h" "down"] (by simp)
      (by intro r hr; simp at hr; subst hr; rfl)
    exact ⟨s, hs, h1.trans (by decide)⟩
  · obtain ⟨s, hs, _, h2⟩ := errorCount_eq_trailingFailures 0 defaultFlags "h"
      [failResult "h" "down", failResult "h" "down", okResult "h" 15000000] (by simp)
      (by intro r hr; simp at hr; rcases hr with rfl | rfl <;> rfl)
    have e : finalStats 0 defaultFlags "h"
        [failResult "h" "down", failResult "h" "down", okResult "h" 15000000] =
        some ⟨15000000, 15000000, 15000000, 15000000, 0, "", 1⟩ := by decide
    refine ⟨s, hs, h2 (by decide), ?_⟩
    rw [e] at hs
    cases hs
    rfl

theorem seqMin_le_mean (ds : List Nat) (hne : ds ≠ []) : seqMin ds ≤ ds.sum / ds.length := by
  have hlen : 0 < ds.length := List.length_pos.mpr hne
  rw [Nat.le_div_iff_mul_le hlen]
  have := List.card_nsmul_le_sum ds (seqMin ds) (fun d hd => seqMin_le ds d hd)
  simpa [mul_comm] using this

theorem mean_le_seqMax (ds : List Nat) : ds.sum / ds.length ≤ seqMax ds := by
  have := List.sum_le_card_nsmul ds (seqMax ds) (fun d hd => le_seqMax ds d hd)
  apply Nat.div_le_of_le_mul
  simpa using this

/-- C4 (counterexample): after a 0ns success and a 5ns success the entry has
`min = 5` and `avg = 2`. -/
theorem min_le_avg_le_max_counterexample :
    ¬ ∃ s, finalStats 0 defaultFlags "h" [okResult "h" 0, okResult "h" 5] = some s ∧
      s.min ≤ s.avg ∧ s.avg ≤ s.max := by
  rintro ⟨s, hs, h1, _⟩
  have e : finalStats 0 defaultFlags "h" [okResult "h" 0, okResult "h" 5] =
      some ⟨5, 5, 5, 2, 0, "", 2⟩ := by decide
  rw [e] at hs
  cases hs
  revert h1
  decide

/-- C4 (amended): for a sequence of results for one host that ends with a success,
whose successful durations are positive, exactly representable as `float64` and of
total below `2 ^ 64`, the final entry has `counter > 0` and `min ≤ avg ≤ max`. -/
theorem min_le_avg_le_max (ovf : Nat) (c : CliContext) (h : String)
    (rs : List AliveResult) (hh : ∀ r ∈ rs, r.Endpoint.Host = h)
    (hlast : rs.getLast?.map isFailure = some false)
    (hs : ∀ r ∈ rs, r.Error = none →
      0 < r.ResponseTime ∧ r.ResponseTime < 2 ^ 63 ∧ ExactF64 r.ResponseTime.toNat)
    (hsum : (okDurations rs).sum < 2 ^ 64) :
    ∃ s, finalStats ovf c h rs = some s ∧ 0 < s.counter ∧ s.min ≤ s.avg ∧ s.avg ≤ s.max := by
  have hne : rs ≠ [] := by
    rintro rfl
    simp at hlast
  have hd : ∀ d ∈ okDurations rs, 0 < d ∧ ExactF64 d := by
    intro d hd
    unfold okDurations at hd
    obtain ⟨r, hr, rfl⟩ := List.mem_map.mp hd
    have hr' := List.mem_filter.mp hr
    have hE : r.Error = none := by
      have := hr'.2
      cases hE : r.Error with
      | none => rfl
      | some m => simp [isFailure, hE] at this
    have h3 := hs r hr'.1 hE
    rw [toUint64_of_nonneg _ (le_of_lt h3.1) (lt_trans h3.2.1 (by norm_num))]
    exact ⟨by omega, h3.2.2⟩
  have hds : okDurations rs ≠ [] := by
    rcases List.eq_nil_or_concat rs with rfl | ⟨l, a, rfl⟩
    · exact absurd rfl hne
    · rw [List.concat_eq_append] at hlast ⊢
      rw [okDurations_snoc]
      simp at hlast
      simp [hlast]
  obtain ⟨s, e1, hc, hsm, _, ha⟩ := finalStats_counts ovf c h rs hh hne
  obtain ⟨s', e2, hmin, hmax⟩ := finalStats_minmax ovf c h rs hh hne hd
  rw [e1] at e2
  cases e2
  have hlen : 0 < (okDurations rs).length := List.length_pos.mpr hds
  have havg : s.avg = (okDurations rs).sum / (okDurations rs).length := by
    rw [ha, hsm, hc, Nat.mod_eq_of_lt (show _ < u64Size from hsum)]
    simp
  refine ⟨s, e1, ?_, ?_, ?_⟩
  · rw [hc]; exact_mod_cast hlen
  · rw [hmin, havg]; exact seqMin_le_mean _ hds
  · rw [hmax, havg]; exact mean_le_seqMax _

/-- C4 (witness): fail, 10ms, 30ms gives `min = 10ms ≤ avg = 20ms ≤ max = 30ms`. -/
theorem min_le_avg_le_max_witness :
    ∃ s, finalStats 0 defaultFlags "h"
        [failResult "h" "down", okResult "h" 10000000, okResult "h" 30000000] = some s ∧
      0 < s.counter ∧ s.min ≤ s.avg ∧ s.avg ≤ s.max :=
  min_le_avg_le_max 0 defaultFlags "h"
    [failResult "h" "down", okResult "h" 10000000, okResult "h" 30000000]
    (by intro r hr; simp at hr; rcases hr with rfl | rfl | rfl <;> rfl)
    (by decide)
    (by
      intro r hr hE
      simp only [List.mem_cons, List.mem_singleton, List.not_mem_nil, or_false] at hr
      rcases hr with rfl | rfl | rfl
      · cases hE
      · exact ⟨by decide, by decide, exactF64_of_le _ (by decide)⟩
      · exact ⟨by decide, by decide, exactF64_of_le _ (by decide)⟩)
    (by decide)

/-- C5: after a non-empty sequence of results for one host, `counter` is the number of
successful results, `sum` is the sum of their durations modulo `2 ^ 64`, and
`avg = sum / counter` whenever `counter > 0`; failures add nothing to either. -/
theorem counter_sum_avg (ovf : Nat) (c : CliContext) (h : String)
    (rs : List AliveResult) (hne : rs ≠ []) (hh : ∀ r ∈ rs, r.Endpoint.Host = h) :
    ∃ s, finalStats ovf c h rs = some s ∧
      s.counter = ((rs.filter (fun r => !isFailure r)).length : Int) ∧
      s.sum = ((rs.filter (fun r => !isFailure r)).map
        (fun r => toUint64 r.ResponseTime)).sum % 2 ^ 64 ∧
      (0 < s.counter → s.avg = s.sum / s.counter.toNat) := by
  obtain ⟨s, e1, hc, hsm, _, ha⟩ := finalStats_counts ovf c h rs hh hne
  refine ⟨s, e1, ?_, ?_, fun _ => ha⟩
  · rw [hc]; simp [okDurations]
  · rw [hsm]; rfl

/-- C5 (witness): 2^63 - 1 ns, fail, 2^63 - 1 ns, 8ns, fail gives `counter = 3`,
`sum = 6` (the total `2 ^ 64 + 6` reduced modulo `2 ^ 64`) and `avg = 2`. -/
theorem counter_sum_avg_witness :
    ∃ s, finalStats 0 defaultFlags "h"
        [okResult "h" 9223372036854775807, failResult "h" "down",
          okResult "h" 9223372036854775807, okResult "h" 8, failResult "h" "down"] = some s ∧
      s.counter = 3 ∧ s.sum = 6 ∧ s.avg = 2 := by
  obtain ⟨s, hs, h1, h2, h3⟩ := counter_sum_avg 0 defaultFlags "h"
    [okResult "h" 9223372036854775807, failResult "h" "down",
      okResult "h" 9223372036854775807, okResult "h" 8, failResult "h" "down"]
    (by simp)
    (by
      intro r hr
      simp only [List.mem_cons, List.mem_singleton, List.not_mem_nil, or_false] at hr
      rcases hr with rfl | rfl | rfl | rfl | rfl <;> rfl)
  have hc : s.counter = 3 := h1.trans (by decide)
  have hsum : s.sum = 6 := h2.trans (by decide)
  refine ⟨s, hs, hc, hsum, ?_⟩
  rw [h3 (by rw [hc]; decide), hsum, hc]
  decide

/-! ## Claims about the client cache -/

theorem adminFactoryNew_cache_persist (lib : GoLib)
    (nwo : String → Options → Option String) (σ : FactoryState) (cfg : Config)
    (k a : Nat) (h : σ.clientCache k = some a) :
    (adminFactoryNew lib nwo σ cfg).2.clientCache k = some a := by
  unfold adminFactoryNew
  cases hp : lib.urlParse cfg.HostURL with
  | error e => simpa using h
  | ok u =>
    simp only
    cases hc : σ.clientCache (confSum u.Host cfg) with
    | some api => simpa using h
    | none =>
      simp only
      cases hn : nwo u.Host _ with
      | some e => simpa using h
      | none =>
        simp only
        by_cases hk : k = confSum u.Host cfg
        · rw [hk, hc] at h
          cases h
        · simp [hk, h]

theorem adminFactoryRun_cache_persist (lib : GoLib)
    (nwo : String → Options → Option String) (cfgs : List Config) (σ : FactoryState)
    (k a : Nat) (h : σ.clientCache k = some a) :
    (adminFactoryRun lib nwo σ cfgs).clientCache k = some a := by
  induction cfgs generalizing σ with
  | nil => exact h
  | cons c cs ih =>
    exact ih (adminFactoryNew lib nwo σ c).2 (adminFactoryNew_cache_persist lib nwo σ c k a h)

theorem adminFactoryNew_ok_cached (lib : GoLib)
    (nwo : String → Options → Option String) (σ σ1 : FactoryState) (cfg : Config)
    (u : URL) (api : Nat) (hp : lib.urlParse cfg.HostURL = Except.ok u)
    (h : adminFactoryNew lib nwo σ cfg = (Except.ok api, σ1)) :
    σ1.clientCache (confSum u.Host cfg) = some api := by
  unfold adminFactoryNew at h
  rw [hp] at h
  simp only at h
  cases hc : σ.clientCache (confSum u.Host cfg) with
  | some a =>
    rw [hc] at h
    simp only [Prod.mk.injEq, Except.ok.injEq] at h
    rw [← h.2, hc, h.1]
  | none =>
    rw [hc] at h
    simp only at h
    cases hn : nwo u.Host _ with
    | some e =>
      rw [hn] at h
      simp at h
    | none =>
      rw [hn] at h
      simp only [Prod.mk.injEq, Except.ok.injEq] at h
      rw [← h.2, ← h.1]
      simp

theorem adminFactoryNew_hit (lib : GoLib)
    (nwo : String → Options → Option String) (σ : FactoryState) (cfg : Config)
    (u : URL) (api : Nat) (hp : lib.urlParse cfg.HostURL = Except.ok u)
    (hc : σ.clientCache (confSum u.Host cfg) = some api) :
    adminFactoryNew lib nwo σ cfg = (Except.ok api, σ) := by
  unfold adminFactoryNew
  rw [hp]
  simp only
  rw [hc]

/-- C6: when a call with one configuration succeeds, a later call on the same factory
with a configuration that has the same parsed host, access key and secret key returns
the same client handle and leaves the factory state, cache and allocated clients,
as it was; the cache holds that handle under the common key. -/
theorem adminFactoryNew_same_triple (lib : GoLib)
    (nwo : String → Options → Option String) (σ σ1 : FactoryState)
    (cfg1 cfg2 : Config) (mid : List Config) (u1 u2 : URL) (api : Nat)
    (hp1 : lib.urlParse cfg1.HostURL = Except.ok u1)
    (hp2 : lib.urlParse cfg2.HostURL = Except.ok u2)
    (hhost : u1.Host = u2.Host) (hak : cfg1.AccessKey = cfg2.AccessKey)
    (hsk : cfg1.SecretKey = cfg2.SecretKey)
    (h1 : adminFactoryNew lib nwo σ cfg1 = (Except.ok api, σ1)) :
    adminFactoryNew lib nwo (adminFactoryRun lib nwo σ1 mid) cfg2 =
        (Except.ok api, adminFactoryRun lib nwo σ1 mid) ∧
      (adminFactoryRun lib nwo σ1 mid).clientCache (confSum u2.Host cfg2) = some api := by
  have hkey : confSum u1.Host cfg1 = confSum u2.Host cfg2 := by
    unfold confSum
    rw [hhost, hak, hsk]
  have hc1 := adminFactoryNew_ok_cached lib nwo σ σ1 cfg1 u1 api hp1 h1
  rw [hkey] at hc1
  have hc2 := adminFactoryRun_cache_persist lib nwo mid σ1 _ _ hc1
  exact ⟨adminFactoryNew_hit lib nwo _ cfg2 u2 api hp2 hc2, hc2⟩

/-- C6 (witness): `playConfig`, then a call for another host, then `playConfigHttp`,
which differs from `playConfig` in scheme, token, flags and application name. -/
theorem adminFactoryNew_same_triple_witness :
    adminFactoryNew sampleLib alwaysConstructs
        (adminFactoryRun sampleLib alwaysConstructs
          (adminFactoryNew sampleLib alwaysConstructs NewAdminFactory playConfig).2
          [otherConfig]) playConfigHttp =
      (Except.ok 0, adminFactoryRun sampleLib alwaysConstructs
          (adminFactoryNew sampleLib alwaysConstructs NewAdminFactory playConfig).2
          [otherConfig]) ∧
    (adminFactoryRun sampleLib alwaysConstructs
          (adminFactoryNew sampleLib alwaysConstructs NewAdminFactory playConfig).2
          [otherConfig]).clientCache
        (confSum "play.min.io:9000" playConfigHttp) = some 0 :=
  adminFactoryNew_same_triple sampleLib alwaysConstructs NewAdminFactory
    (adminFactoryNew sampleLib alwaysConstructs NewAdminFactory playConfig).2
    playConfig playConfigHttp [otherConfig]
    ⟨"https", "play.min.io:9000"⟩ ⟨"http", "play.min.io:9000"⟩ 0
    rfl rfl rfl rfl rfl rfl

theorem sound_new : NewAdminFactory.Sound := by
  intro k a h
  cases h

theorem adminFactoryNew_sound (lib : GoLib)
    (nwo : String → Options → Option String) (σ : FactoryState) (cfg : Config)
    (hs : σ.Sound) : (adminFactoryNew lib nwo σ cfg).2.Sound := by
  unfold adminFactoryNew
  cases hp : lib.urlParse cfg.HostURL with
  | error e => simpa using hs
  | ok u =>
    simp only
    cases hc : σ.clientCache (confSum u.Host cfg) with
    | some api => simpa using hs
    | none =>
      simp only
      cases hn : nwo u.Host _ with
      | some e => simpa using hs
      | none =>
        simp only
        intro k a hk
        simp only [List.length_append, List.length_singleton]
        by_cases e : k = confSum u.Host cfg
        · simp only [e, if_true, Option.some.injEq] at hk
          subst hk
          refine ⟨Nat.lt_succ_self _, fun k2 hk2 => ?_⟩
          by_cases e2 : k2 = confSum u.Host cfg
          · rw [e2, e]
          · simp only [e2, if_false] at hk2
            exact absurd (hs k2 _ hk2).1 (lt_irrefl _)
        · simp only [e, if_false] at hk
          have h0 := hs k a hk
          refine ⟨Nat.lt_succ_of_lt h0.1, fun k2 hk2 => ?_⟩
          by_cases e2 : k2 = confSum u.Host cfg
          · simp only [e2, if_true, Option.some.injEq] at hk2
            rw [← hk2] at h0
            exact absurd h0.1 (lt_irrefl _)
          · simp only [e2, if_false] at hk2
            exact h0.2 k2 hk2

theorem adminFactoryRun_sound (lib : GoLib)
    (nwo : String → Options → Option String) (cfgs : List Config) (σ : FactoryState)
    (hs : σ.Sound) : (adminFactoryRun lib nwo σ cfgs).Sound := by
  induction cfgs generalizing σ with
  | nil => exact hs
  | cons c cs ih => exact ih (adminFactoryNew lib nwo σ c).2 (adminFactoryNew_sound lib nwo σ c hs)

/-- C7 (counterexample): the configurations with keys `ab`, `c` and `a`, `bc` differ in
access key and secret key, both constructions would succeed, and the second call
returns the handle cached by the first. -/
theorem adminFactoryNew_distinct_triple_counterexample :
    splitKeysA.AccessKey ≠ splitKeysB.AccessKey ∧
    splitKeysA.SecretKey ≠ splitKeysB.SecretKey ∧
    (adminFactoryNew sampleLib alwaysConstructs NewAdminFactory splitKeysA).1 = Except.ok 0 ∧
    (adminFactoryNew sampleLib alwaysConstructs
      (adminFactoryNew sampleLib alwaysConstructs NewAdminFactory splitKeysA).2
      splitKeysB).1 = Except.ok 0 :=
  ⟨by decide, by decide, rfl, rfl⟩

/-- C7 (amended): on one factory, two successful calls whose cache keys, the FNV-1a
hashes of host ++ AccessKey ++ SecretKey, differ return distinct client handles. -/
theorem adminFactoryNew_distinct_key (lib : GoLib)
    (nwo : String → Options → Option String) (pre mid : List Config)
    (cfg1 cfg2 : Config) (u1 u2 : URL) (a1 a2 : Nat) (σ1 σ3 : FactoryState)
    (hp1 : lib.urlParse cfg1.HostURL = Except.ok u1)
    (hp2 : lib.urlParse cfg2.HostURL = Except.ok u2)
    (hkey : fnv32a (stringBytes (u1.Host ++ cfg1.AccessKey ++ cfg1.SecretKey)) ≠
      fnv32a (stringBytes (u2.Host ++ cfg2.AccessKey ++ cfg2.SecretKey)))
    (h1 : adminFactoryNew lib nwo (adminFactoryRun lib nwo NewAdminFactory pre) cfg1 =
      (Except.ok a1, σ1))
    (h2 : adminFactoryNew lib nwo (adminFactoryRun lib nwo σ1 mid) cfg2 =
      (Except.ok a2, σ3)) :
    a1 ≠ a2 := by
  have s0 := adminFactoryRun_sound lib nwo pre NewAdminFactory sound_new
  have s1 : σ1.Sound := by
    have := adminFactoryNew_sound lib nwo _ cfg1 s0
    rw [h1] at this
    exact this
  have s2 := adminFactoryRun_sound lib nwo mid σ1 s1
  have s3 : σ3.Sound := by
    have := adminFactoryNew_sound lib nwo _ cfg2 s2
    rw [h2] at this
    exact this
  have c1 := adminFactoryNew_ok_cached lib nwo _ σ1 cfg1 u1 a1 hp1 h1
  have c1' := adminFactoryRun_cache_persist lib nwo mid σ1 _ _ c1
  have c1'' := adminFactoryNew_cache_persist lib nwo _ cfg2 _ _ c1'
  rw [h2] at c1''
  have c2 := adminFactoryNew_ok_cached lib nwo _ σ3 cfg2 u2 a2 hp2 h2
  intro e
  subst e
  exact hkey ((s3 _ _ c2).2 _ c1'')

/-- C7 (witness): on a fresh factory `playConfig` gets the handle `0` and
`otherConfig` the handle `1`. -/
theorem adminFactoryNew_distinct_key_witness :
    (adminFactoryNew sampleLib alwaysConstructs NewAdminFactory playConfig).1 = Except.ok 0 ∧
    (adminFactoryNew sampleLib alwaysConstructs
      (adminFactoryNew sampleLib alwaysConstructs NewAdminFactory playConfig).2
      otherConfig).1 = Except.ok 1 ∧
    (0 : Nat) ≠ 1 :=
  ⟨rfl, rfl,
    adminFactoryNew_distinct_key sampleLib alwaysConstructs [] [] playConfig otherConfig
      ⟨"https", "play.min.io:9000"⟩ ⟨"https", "other.example"⟩ 0 1
      (adminFactoryNew sampleLib alwaysConstructs NewAdminFactory playConfig).2
      (adminFactoryNew sampleLib alwaysConstructs
        (adminFactoryNew sampleLib alwaysConstructs NewAdminFactory playConfig).2
        otherConfig).2
      rfl rfl (by decide) rfl rfl⟩

/-- C8: a call that fails, because the address does not parse or because the client
construction returns an error, returns the error without a client and leaves the
factory state unchanged; so does every call that returns an error. -/
theorem adminFactoryNew_failure (lib : GoLib)
    (nwo : String → Options → Option String) (σ : FactoryState) (config : Config) :
    (∀ e, lib.urlParse config.HostURL = Except.error e →
      adminFactoryNew lib nwo σ config = (Except.error e, σ)) ∧
    (∀ u e, lib.urlParse config.HostURL = Except.ok u →
      σ.clientCache (confSum u.Host config) = none →
      nwo u.Host { Creds := { AccessKey := config.AccessKey, SecretKey := config.SecretKey,
                              SessionToken := config.SessionToken },
                   Secure := if u.Scheme = "http" then false else true } = some e →
      adminFactoryNew lib nwo σ config = (Except.error e, σ)) ∧
    (∀ e σ1, adminFactoryNew lib nwo σ config = (Except.error e, σ1) → σ1 = σ) := by
  refine ⟨?_, ?_, ?_⟩
  · intro e hp
    unfold adminFactoryNew
    rw [hp]
  · intro u e hp hc hn
    unfold adminFactoryNew
    rw [hp]
    simp only
    rw [hc]
    simp only
    rw [hn]
  · intro e σ1 h
    unfold adminFactoryNew at h
    cases hp : lib.urlParse config.HostURL with
    | error e1 =>
      rw [hp] at h
      simp only [Prod.mk.injEq] at h
      exact h.2.symm
    | ok u =>
      rw [hp] at h
      simp only at h
      cases hc : σ.clientCache (confSum u.Host config) with
      | some api =>
        rw [hc] at h
        simp at h
      | none =>
        rw [hc] at h
        simp only at h
        cases hn : nwo u.Host _ with
        | some e1 =>
          rw [hn] at h
          simp only [Prod.mk.injEq] at h
          exact h.2.symm
        | none =>
          rw [hn] at h
          simp at h

/-- C8 (witness): an address without scheme fails to parse, and a failing constructor
fails the call; both leave a fresh factory as it was. -/
theorem adminFactoryNew_failure_witness :
    adminFactoryNew sampleLib alwaysConstructs NewAdminFactory badURLConfig =
      (Except.error "missing protocol scheme", NewAdminFactory) ∧
    adminFactoryNew sampleLib neverConstructs NewAdminFactory playConfig =
      (Except.error "invalid endpoint", NewAdminFactory) :=
  ⟨(adminFactoryNew_failure sampleLib alwaysConstructs NewAdminFactory badURLConfig).1
      "missing protocol scheme" rfl,
   (adminFactoryNew_failure sampleLib neverConstructs NewAdminFactory playConfig).2.1
      ⟨"https", "play.min.io:9000"⟩ "invalid endpoint" rfl rfl rfl⟩

/-! ## Claims about the loops of `mainPing` -/

theorem pingRound_index (lib : GoLib) (env : PingEnv) (c : CliContext) (st : PingState) :
    (pingRound lib env c st).index = st.index + 1 := rfl

theorem pingRound_counters (lib : GoLib) (env : PingEnv) (c : CliContext) (st : PingState) :
    (pingRound lib env c st).out.map (fun p => p.Counter) =
      st.out.map (fun p => p.Counter) ++ [itoa st.index] := by
  simp [pingRound, ping]

theorem iterate_pingRound_index (lib : GoLib) (env : PingEnv) (c : CliContext)
    (n : Nat) (st : PingState) :
    ((pingRound lib env c)^[n] st).index = st.index + n := by
  induction n with
  | zero => simp
  | succ n ih =>
    rw [Function.iterate_succ_apply', pingRound_index, ih]
    push_cast
    ring

theorem iterate_pingRound_counters (lib : GoLib) (env : PingEnv) (c : CliContext)
    (n : Nat) (st : PingState) :
    ((pingRound lib env c)^[n] st).out.map (fun p => p.Counter) =
      st.out.map (fun p => p.Counter) ++
        (List.range n).map (fun (i : Nat) => itoa (st.index + (i : Int))) := by
  induction n with
  | zero => simp
  | succ n ih =>
    rw [Function.iterate_succ_apply', pingRound_counters, ih, iterate_pingRound_index,
      List.range_succ]
    simp

theorem countLoop_run (lib : GoLib) (env : PingEnv) (c : CliContext) (count : Int)
    (n : Nat) (st : PingState) (fuel : Nat)
    (hidx : st.index + n = count + 1)
    (hstop : ∀ k : Nat, k < n → ((pingRound lib env c)^[k] st).stop = false)
    (hfuel : n < fuel) :
    countLoop lib env c count fuel st = some ((pingRound lib env c)^[n] st) := by
  induction n generalizing st fuel with
  | zero =>
    cases fuel with
    | zero => exact absurd hfuel (lt_irrefl _)
    | succ f =>
      have : ¬ st.index ≤ count := by
        simp only [Nat.cast_zero, add_zero] at hidx
        omega
      simp [countLoop, this]
  | succ n ih =>
    cases fuel with
    | zero => exact absurd hfuel (Nat.not_lt_zero _)
    | succ f =>
      have h1 : st.index ≤ count := by
        push_cast at hidx
        omega
      have h2 : st.stop = false := hstop 0 (Nat.succ_pos _)
      have h3 := ih (pingRound lib env c st) f
        (by rw [pingRound_index]; push_cast at hidx; omega)
        (fun k hk => by
          have := hstop (k + 1) (Nat.succ_lt_succ hk)
          rwa [Function.iterate_succ_apply] at this)
        (Nat.lt_of_succ_lt_succ hfuel)
      rw [Function.iterate_succ_apply]
      simp [countLoop, h1, h2, h3]

/-- C9: `getPingInfo` leaves the stop flag set exactly when it was set before or the
result is a failure, `error-count` is configured, and the resulting `errorCount` is at
least the configured value. At a loop head with the flag set, the counted loop and the
unbounded loop of `mainPing` both return without calling `ping`; so when the round
started at a loop head sets the flag, that round is the last one. -/
theorem stop_flag_halts (lib : GoLib) (env : PingEnv) (cliCtx : CliContext) :
    (∀ ovf result serverMap stop,
      ((getPingInfo ovf cliCtx result serverMap stop).2 = true ↔
        (stop = true ∨ (result.Error ≠ none ∧ cliCtx.errorCountSet = true ∧
          cliCtx.errorCount ≤ (getPingInfo ovf cliCtx result serverMap stop).1.errorCount)))) ∧
    (∀ count fuel st, st.stop = true →
      countLoop lib env cliCtx count (fuel + 1) st = some st) ∧
    (∀ fuel st, st.stop = true →
      ∃ e, foreverLoop lib env cliCtx (fuel + 1) st = some (st, e)) ∧
    (∀ count fuel st, st.index ≤ count → st.stop = false →
      (pingRound lib env cliCtx st).stop = true →
      countLoop lib env cliCtx count (fuel + 2) st = some (pingRound lib env cliCtx st)) ∧
    (∀ fuel st, env.done st.index = none → st.stop = false →
      (pingRound lib env cliCtx st).stop = true →
      ∃ e, foreverLoop lib env cliCtx (fuel + 2) st =
        some (pingRound lib env cliCtx st, e)) := by
  have hb : ∀ count fuel st, st.stop = true →
      countLoop lib env cliCtx count (fuel + 1) st = some st := by
    intro count fuel st hs
    by_cases h : st.index ≤ count <;> simp [countLoop, h, hs]
  have hc : ∀ fuel st, st.stop = true →
      ∃ e, foreverLoop lib env cliCtx (fuel + 1) st = some (st, e) := by
    intro fuel st hs
    cases hd : env.done st.index with
    | some e => exact ⟨some e, by simp [foreverLoop, hd]⟩
    | none => exact ⟨none, by simp [foreverLoop, hd, hs]⟩
  refine ⟨?_, hb, hc, ?_, ?_⟩
  · intro ovf result serverMap stop
    cases hE : result.Error with
    | none =>
      cases hm : serverMap result.Endpoint.Host <;> simp [getPingInfo, hE, hm]
    | some msg =>
      cases hm : serverMap result.Endpoint.Host <;> cases stop <;>
        simp [getPingInfo, hE, hm]
  · intro count fuel st hi hs hr
    have := hb count fuel _ hr
    rw [show fuel + 2 = (fuel + 1) + 1 from rfl, countLoop]
    simp only [hi, hs, if_true]
    simpa using this
  · intro fuel st hd hs hr
    obtain ⟨e, he⟩ := hc fuel _ hr
    refine ⟨e, ?_⟩
    rw [show fuel + 2 = (fuel + 1) + 1 from rfl, foreverLoop]
    simp only [hd, hs]
    simpa using he

/-- C9 (witness): with `--count 5 --error-count 2` and a host that always fails, the
second round sets the flag and is the last one: two messages are printed. -/
theorem stop_flag_halts_witness :
    countLoop sampleLib failingEnv (countErrorFlags 5 2) 5 2
        (pingRound sampleLib failingEnv (countErrorFlags 5 2) initialPingState) =
      some (pingRound sampleLib failingEnv (countErrorFlags 5 2)
        (pingRound sampleLib failingEnv (countErrorFlags 5 2) initialPingState)) ∧
    (mainPing sampleLib failingEnv (countErrorFlags 5 2) 0).map
        (fun r => (r.1, r.2.map (fun p => p.Counter))) =
      some (Outcome.returned none, ["1", "2"]) :=
  ⟨(stop_flag_halts sampleLib failingEnv (countErrorFlags 5 2)).2.2.2.1 5 0
      (pingRound sampleLib failingEnv (countErrorFlags 5 2) initialPingState)
      (by decide) rfl rfl,
    by decide⟩

/-- C10: with `count` set to `N`, a value below `1` ends `mainPing` with the
configuration error before any call of `ping`; for `N ≥ 1`, when no round before the
last sets the stop flag, `mainPing` returns `nil` after exactly `N` calls of `ping`,
whose messages carry the counters `1, 2, ..., N` in this order. -/
theorem mainPing_count (lib : GoLib) (env : PingEnv) (cliCtx : CliContext) (fuel : Nat)
    (hset : cliCtx.countSet = true) :
    (cliCtx.count < 1 →
      mainPing lib env cliCtx fuel =
        some (Outcome.fatal "ping count cannot be less than 1", [])) ∧
    (1 ≤ cliCtx.count →
      (∀ k : Nat, k < cliCtx.count.toNat →
        ((pingRound lib env cliCtx)^[k] initialPingState).stop = false) →
      ∃ out, mainPing lib env cliCtx fuel = some (Outcome.returned none, out) ∧
        out.length = cliCtx.count.toNat ∧
        out.map (fun p => p.Counter) =
          (List.range cliCtx.count.toNat).map (fun (i : Nat) => itoa ((i : Int) + 1))) := by
  constructor
  · intro h
    simp [mainPing, hset, h, fatalInvalidArgument]
  · intro h hstop
    have hrun := countLoop_run lib env cliCtx cliCtx.count cliCtx.count.toNat
      initialPingState (cliCtx.count.toNat + 1)
      (by simp only [initialPingState]; omega) hstop (Nat.lt_succ_self _)
    have hcnt := iterate_pingRound_counters lib env cliCtx cliCtx.count.toNat
      initialPingState
    refine ⟨((pingRound lib env cliCtx)^[cliCtx.count.toNat] initialPingState).out, ?_, ?_, ?_⟩
    · have hn : ¬ cliCtx.count < 1 := not_lt.mpr h
      simp [mainPing, hset, hn, hrun]
    · have := congrArg List.length hcnt
      rw [List.length_map, List.length_append, List.length_map, List.length_map,
        List.length_range] at this
      rw [this]
      simp only [initialPingState, List.length_nil, Nat.zero_add]
    · rw [hcnt]
      simp [initialPingState, add_comm]

/-- C10 (witness): `--count 3` against a healthy host prints the counters 1, 2, 3 and
returns `nil`; `--count 0` ends with the configuration error and prints nothing. -/
theorem mainPing_count_witness :
    (∃ out, mainPing sampleLib healthyEnv (countFlags 3) 0 =
        some (Outcome.returned none, out) ∧ out.length = 3 ∧
        out.map (fun p => p.Counter) = ["1", "2", "3"]) ∧
    mainPing sampleLib healthyEnv (countFlags 0) 0 =
      some (Outcome.fatal "ping count cannot be less than 1", []) := by
  constructor
  · obtain ⟨out, h1, h2, h3⟩ := (mainPing_count sampleLib healthyEnv (countFlags 3) 0 rfl).2
      (by decide)
      (by
        intro k hk
        have hk3 : k < 3 := hk
        interval_cases k <;> rfl)
    exact ⟨out, h1, h2, h3.trans (by decide)⟩
  · exact (mainPing_count sampleLib healthyEnv (countFlags 0) 0 rfl).1 (by decide)

/-! ## Claims about `extractHostPort` -/

/-- C11 (counterexamples): `ftp://example.com` has no port and a scheme that is neither
http nor https, yet it is not rejected: behind `//` its authority reads `ftp:` and the
result is host `ftp` with an empty port. `https://` has no port either, and the result
is host `https` with port `//` instead of the authority and `443`. -/
theorem extractHostPort_cases_counterexample :
    extractHostPort sampleLib "ftp://example.com" = Except.ok ("ftp", "") ∧
    extractHostPort sampleLib "https://" = Except.ok ("https", "//") :=
  ⟨rfl, rfl⟩

/-- C11 (amended): the empty address is an error. Otherwise the address, put behind
`//` unless it starts with `http://` or `https://`, is parsed, and `addr` is the parsed
authority, or that whole address with scheme `http` when the authority is empty. When
`net.SplitHostPort addr` succeeds its host and port are returned; when it reports a
missing port the result is `addr` with `443` for scheme https, `addr` with `80` for
scheme http, and an error for any other parsed scheme. -/
theorem extractHostPort_cases (lib : GoLib) (hostAddr : String) :
    (hostAddr = "" →
      extractHostPort lib hostAddr = Except.error "unable to process empty address") ∧
    (hostAddr ≠ "" → ∀ u, lib.urlParse (prefixedAddr hostAddr) = Except.ok u →
      (∀ host port, lib.splitHostPort (addrOf hostAddr u) = Except.ok (host, port) →
        extractHostPort lib hostAddr = Except.ok (host, port)) ∧
      (∀ err, lib.splitHostPort (addrOf hostAddr u) = Except.error err →
        stringsContains err "missing port in address" = true →
        (schemeOf u = "https" →
          extractHostPort lib hostAddr = Except.ok (addrOf hostAddr u, "443")) ∧
        (schemeOf u = "http" →
          extractHostPort lib hostAddr = Except.ok (addrOf hostAddr u, "80")) ∧
        (schemeOf u ≠ "https" → schemeOf u ≠ "http" →
          extractHostPort lib hostAddr =
            Except.error "unable to guess port from scheme"))) := by
  constructor
  · intro h
    simp [extractHostPort, h]
  · intro hne u hp
    have hp' : lib.urlParse
        (if (!hasPrefix hostAddr "http://" && !hasPrefix hostAddr "https://") = true then
          "//" ++ hostAddr else hostAddr) = Except.ok u := hp
    constructor
    · intro host port hs
      have hs' : lib.splitHostPort (if u.Host = "" then
          (if (!hasPrefix hostAddr "http://" && !hasPrefix hostAddr "https://") = true then
            "//" ++ hostAddr else hostAddr) else u.Host) = Except.ok (host, port) := hs
      simp only [extractHostPort, if_neg hne, hp', hs']
    · intro err hs hc
      have hs' : lib.splitHostPort (if u.Host = "" then
          (if (!hasPrefix hostAddr "http://" && !hasPrefix hostAddr "https://") = true then
            "//" ++ hostAddr else hostAddr) else u.Host) = Except.error err := hs
      refine ⟨?_, ?_, ?_⟩
      · intro h1
        have h1' : (if u.Host = "" then "http" else u.Scheme) = "https" := h1
        simp only [extractHostPort, if_neg hne, hp', hs', hc, h1']
        rfl
      · intro h1
        have h1' : (if u.Host = "" then "http" else u.Scheme) = "http" := h1
        simp only [extractHostPort, if_neg hne, hp', hs', hc, h1']
        rfl
      · intro h1 h2
        have h1' : ¬ (if u.Host = "" then "http" else u.Scheme) = "https" := h1
        have h2' : ¬ (if u.Host = "" then "http" else u.Scheme) = "http" := h2
        simp only [extractHostPort, if_neg hne, hp', hs', hc, h1', h2']
        rfl

/-- C11 (witness): `localhost:9000`, `:9000`, `https://example.com`, a bare
`localhost` and the empty address. -/
theorem extractHostPort_cases_witness :
    extractHostPort sampleLib "localhost:9000" = Except.ok ("localhost", "9000") ∧
    extractHostPort sampleLib ":9000" = Except.ok ("", "9000") ∧
    extractHostPort sampleLib "https://example.com" = Except.ok ("example.com", "443") ∧
    extractHostPort sampleLib "localhost" =
      Except.error "unable to guess port from scheme" ∧
    extractHostPort sampleLib "" = Except.error "unable to process empty address" :=
  ⟨((extractHostPort_cases sampleLib "localhost:9000").2 (by decide)
      ⟨"", "localhost:9000"⟩ rfl).1 "localhost" "9000" rfl,
   ((extractHostPort_cases sampleLib ":9000").2 (by decide)
      ⟨"", ":9000"⟩ rfl).1 "" "9000" rfl,
   (((extractHostPort_cases sampleLib "https://example.com").2 (by decide)
      ⟨"https", "example.com"⟩ rfl).2
      "address example.com: missing port in address" rfl rfl).1 rfl,
   (((extractHostPort_cases sampleLib "localhost").2 (by decide)
      ⟨"", "localhost"⟩ rfl).2
      "address localhost: missing port in address" rfl rfl).2.2 (by decide) (by decide),
   (extractHostPort_cases sampleLib "").1 rfl⟩

/-! ## Claims about cancellation in `mainPing` -/

theorem foreverLoop_cancelled (lib : GoLib) (env : PingEnv) (cliCtx : CliContext)
    (fuel : Nat) (st : PingState) (e : String) (hd : env.done st.index = some e) :
    foreverLoop lib env cliCtx (fuel + 1) st = some (st, some e) := by
  simp [foreverLoop, hd]

theorem mainPing_unbounded_cancelled (lib : GoLib) (env : PingEnv) (cliCtx : CliContext)
    (fuel : Nat) (e : String) (hc : cliCtx.countSet = false) (hd : env.done 1 = some e) :
    mainPing lib env cliCtx (fuel + 1) = some (Outcome.returned (some e), []) := by
  have h := foreverLoop_cancelled lib env cliCtx fuel initialPingState e hd
  simp only [mainPing, hc, h]
  rfl

theorem countLoop_ignores_done (lib : GoLib) (alive : Int → List AliveResult)
    (done1 done2 : Int → Option String) (cliCtx : CliContext) (count : Int)
    (fuel : Nat) (st : PingState) :
    countLoop lib { alive := alive, done := done1 } cliCtx count fuel st =
      countLoop lib { alive := alive, done := done2 } cliCtx count fuel st := by
  induction fuel generalizing st with
  | zero => rfl
  | succ f ih =>
    simp only [countLoop]
    split
    · split
      · rfl
      · exact ih _
    · rfl

/-- C12 (failing input): with `--count 2` and the context cancelled before the first
round, `mainPing` still calls `ping` for rounds 1 and 2, prints the two messages and
returns `nil`; without `--count` the same environment makes it return the context
error before any call of `ping`. -/
theorem mainPing_count_ignores_cancellation :
    (mainPing sampleLib cancelledEnv (countFlags 2) 0).map
        (fun r => (r.1, r.2.map (fun p => p.Counter))) =
      some (Outcome.returned none, ["1", "2"]) ∧
    mainPing sampleLib cancelledEnv defaultFlags 1 =
      some (Outcome.returned (some "context canceled"), []) :=
  ⟨by decide, rfl⟩

end Mc
